import Mathlib

/-!
Verification of the SkyPortal comment handler
(`skyportal/handlers/api/comment.py`) against its natural-language
specification.  Text is embedded as `List Char`, bytes as `List Nat`
(each `< 256`), database/session effects as explicit action traces,
and the external authorization/store layer as environment fields,
modelled from the spec where its code is not part of this repository.
-/

namespace Skyportal

/-- Whitespace characters recognised by Python's `str.split()` with no
arguments (space, tab, newline, carriage return, vertical tab, form feed). -/
def wsChars : List Char := [' ', '\t', '\n', '\r', '\x0b', '\x0c']

/-- The character set `string.punctuation` with `'-'` and `'@'` removed,
exactly as computed in `users_mentioned`
(`string.punctuation.replace("-", "").replace("@", "")`). -/
def mentionPunctuation : List Char :=
  ['!', '"', '#', '$', '%', '&', '\'', '(', ')', '*', '+', ',', '.', '/',
   ':', ';', '<', '=', '>', '?', '[', '\\', ']', '^', '_', '\x60',
   '\x7b', '|', '\x7d', '~']

/-- Python `word.strip(chars)`: remove leading and trailing characters
belonging to `cs`. -/
def stripChars (cs : List Char) (w : List Char) : List Char :=
  ((w.dropWhile (· ∈ cs)).reverse.dropWhile (· ∈ cs)).reverse

/-- Python `text.replace(",", " ")`. -/
def commaToSpace (text : List Char) : List Char :=
  text.map (fun c => if c = ',' then ' ' else c)

/-- Python `s.split()` (no separator): split on runs of whitespace,
discarding empty pieces. -/
def pySplitWS (s : List Char) : List (List Char) :=
  (s.splitOnP (· ∈ wsChars)).filter (· ≠ [])

/-- The candidate usernames collected by `users_mentioned`: tokenize on
whitespace after turning commas into spaces, strip edge punctuation
(which keeps `-` and `@`), keep tokens starting with `'@'`, and remove
every `'@'` from them. -/
def mentionCandidates (text : List Char) : List (List Char) :=
  ((((pySplitWS (commaToSpace text)).map (stripChars mentionPunctuation)).filter
      (fun w => w.headD ' ' = '@')).map (fun w => w.filter (· ≠ '@')))

/-- The literal separator `'base64,'` used by `split('base64,')` in the
attachment write paths. -/
def b64sep : List Char := ['b', 'a', 's', 'e', '6', '4', ',']

/-- Worker for `pySplitBase64Last`: left-to-right scan over `s`; on each
non-overlapping occurrence of `b64sep` the accumulator is reset to the text
after that occurrence, so the final accumulator is the last piece of the
Python split.  The fuel argument (instantiated with `s.length + 1`) only
makes the recursion structural. -/
def afterLastSepGo : Nat → List Char → List Char → List Char
  | 0, _, acc => acc
  | _ + 1, [], acc => acc
  | fuel + 1, c :: rest, acc =>
      if b64sep.isPrefixOf (c :: rest) then
        afterLastSepGo fuel (rest.drop 6) (rest.drop 6)
      else
        afterLastSepGo fuel rest acc

/-- Python `s.split('base64,')[-1]`: the text after the last
(non-overlapping, left-to-right) occurrence of `'base64,'`, or all of `s`
when there is none. -/
def pySplitBase64Last (s : List Char) : List Char :=
  afterLastSepGo (s.length + 1) s s

/-- The standard base64 alphabet, indexed by sextet value. -/
def b64Alphabet : List Char :=
  "ABCDEFGHIJKLMNOPQRSTUVWXYZabcdefghijklmnopqrstuvwxyz0123456789+/".toList

/-- The base64 character for the sextet `n < 64`. -/
def encChar (n : Nat) : Char := b64Alphabet.getD n '='

/-- The sextet value of a base64 character (64 when `c` is not in the
alphabet). -/
def decChar (c : Char) : Nat := b64Alphabet.indexOf c

/-- Standard base64 encoding of a byte sequence (each byte `< 256`),
with `'='` padding, as produced by `base64.b64encode`. -/
def b64encodeBytes : List Nat → List Char
  | [] => []
  | [a] => [encChar (a / 4), encChar (a % 4 * 16), '=', '=']
  | [a, b] => [encChar (a / 4), encChar (a % 4 * 16 + b / 16), encChar (b % 16 * 4), '=']
  | a :: b :: c :: rest =>
      encChar (a / 4) :: encChar (a % 4 * 16 + b / 16) ::
        encChar (b % 16 * 4 + c / 64) :: encChar (c % 64) :: b64encodeBytes rest

/-- Base64 decoding of well-padded base64 text to bytes, as performed by
`base64.b64decode` on its own encodings. -/
def b64decodeChars : List Char → List Nat
  | c1 :: c2 :: c3 :: c4 :: rest =>
      if c3 = '=' then
        [decChar c1 * 4 + decChar c2 / 16]
      else if c4 = '=' then
        [decChar c1 * 4 + decChar c2 / 16, decChar c2 % 16 * 16 + decChar c3 / 4]
      else
        (decChar c1 * 4 + decChar c2 / 16) ::
          (decChar c2 % 16 * 16 + decChar c3 / 4) ::
          (decChar c3 % 4 * 64 + decChar c4) :: b64decodeChars rest
  | _ => []

/-- A user row of the external user table: an id and a unique username. -/
structure User where
  id : Nat
  username : List Char
deriving DecidableEq, Repr

/-- Embedding of `users_mentioned(text)`: collect the candidate usernames
from the text, then resolve them against the user directory
(`User.query.filter(User.username.in_(usernames)).all()`), which returns
each existing matching user row once and drops unmatched names. -/
def users_mentioned (directory : List User) (text : List Char) : List User :=
  directory.filter (fun u => u.username ∈ mentionCandidates text)

/-- A persisted comment row: text, annotated object, author, the two
attachment columns and the visibility group list. -/
structure CommentRec where
  id : Nat
  obj_id : List Char
  text : List Char
  author_id : Nat
  attachment_bytes : Option (List Char)
  attachment_name : Option (List Char)
  group_ids : List Nat
deriving DecidableEq, Repr

/-- Error outcomes surfaced by the comment handlers.  `uncaughtException`
stands for a Python exception that escapes the handler (it belongs to no
described error of the taxonomy). -/
inductive Err where
  | missingField
  | malformedAttachment
  | attachmentConsistency
  | accessDenied
  | notFoundOrForbidden
  | uncaughtException
deriving DecidableEq, Repr

/-- Result of a request: a success value (new or affected comment id) or an
error. -/
inductive Res where
  | ok (commentId : Nat)
  | err (e : Err)
deriving DecidableEq, Repr

/-- Database/session/push operations performed by a handler, in program
order.  Operations before `commit` are durable exactly when a `commit`
follows them in the trace. -/
inductive Action where
  | addNotification (recipient : Nat) (text : List Char) (url : List Char)
  | persistComment (c : CommentRec)
  | removeComment (id : Nat)
  | commit
  | pushUser (recipient : Nat) (actionName : List Char)
  | pushAll (actionName : List Char) (objId : List Char)
deriving DecidableEq, Repr

/-- Whether the action is the per-user live push `self.flow.push(...)`. -/
def Action.isPushUser : Action → Bool
  | .pushUser _ _ => true
  | _ => false

/-- Whether the action is the broadcast push `self.push_all(...)`. -/
def Action.isPushAll : Action → Bool
  | .pushAll _ _ => true
  | _ => false

/-- Whether the action is any live-push emission. -/
def Action.isPush (a : Action) : Bool := a.isPushUser || a.isPushAll

/-- Whether the action adds a durable `UserNotification` row. -/
def Action.isAddNotification : Action → Bool
  | .addNotification _ _ _ => true
  | _ => false

/-- The operations performed by one request together with its response. -/
structure Outcome where
  trace : List Action
  result : Res
deriving DecidableEq, Repr

/-- Access modes of `get_if_accessible_by`. -/
inductive AccessMode where
  | readMode
  | updateMode
  | deleteMode
deriving DecidableEq, Repr

/-- Per-request environment: the external user directory, the acting user,
and the external authorization/store state the handlers consult. -/
structure Env where
  directory : List User
  currentUser : User
  accessibleGroupIds : List Nat
  groupOk : Nat → Bool
  comments : List CommentRec
  canRead : Nat → Bool
  canUpdate : Nat → Bool
  canDelete : Nat → Bool
  nextCommentId : Nat

/-- Modelled from the spec: `Group.get_if_accessible_by(group_ids, user,
raise_if_none=True)` of the external store/authorization layer (baselayer,
not part of this repository's source).  Every requested group id must be
one the requester may grant visibility to; if any check fails the whole
call fails (all-or-nothing), surfaced by the handlers as `AccessDenied`. -/
def groupsIfAccessible (env : Env) (gids : List Nat) : Option (List Nat) :=
  if gids.all env.groupOk then some gids else none

/-- Modelled from the spec: `Comment.get_if_accessible_by(comment_id, user,
mode, raise_if_none=True)` of the external store/authorization layer
(baselayer, not part of this repository's source).  It yields the comment
only when it exists and the requester has the requested mode of access,
and reports a single failure that does not distinguish absence from
inaccessibility (surfaced by the handlers as `NotFoundOrForbidden`). -/
def commentIfAccessible (env : Env) (commentId : Nat) (mode : AccessMode) :
    Option CommentRec :=
  match env.comments.find? (fun c => c.id = commentId) with
  | none => none
  | some c =>
      match mode with
      | .readMode => if env.canRead c.id then some c else none
      | .updateMode => if env.canUpdate c.id then some c else none
      | .deleteMode => if env.canDelete c.id then some c else none

/-- JSON value found under the `attachment` key of a create request:
either not a JSON object, or an object whose optional `body`/`name`
fields model the presence of those keys. -/
inductive AttachVal where
  | notObject
  | object (body : Option (List Char)) (name : Option (List Char))
deriving DecidableEq, Repr

/-- Body of a create (POST) request. -/
structure PostData where
  obj_id : Option (List Char)
  text : Option (List Char)
  group_ids : Option (List Nat)
  attachment : Option AttachVal
deriving Repr

/-- Body of an update (PUT) request (the fields the handler reads). -/
structure PutData where
  text : Option (List Char)
  attachment_name : Option (List Char)
  attachment_bytes : Option (List Char)
  group_ids : Option (List Nat)
deriving Repr

/-- The notification text
`f"*@{current_user.username}* mentioned you in a comment on *{obj_id}*"`. -/
def notificationText (actingUsername objId : List Char) : List Char :=
  "*@".toList ++ actingUsername ++
    "* mentioned you in a comment on *".toList ++ objId ++ "*".toList

/-- The notification deep link `f"/source/{obj_id}"`. -/
def notificationUrl (objId : List Char) : List Char :=
  "/source/".toList ++ objId

/-- The per-user push topic `"skyportal/FETCH_NOTIFICATIONS"`. -/
def fetchNotificationsTopic : List Char := "skyportal/FETCH_NOTIFICATIONS".toList

/-- The broadcast push topic `"skyportal/REFRESH_SOURCE"`. -/
def refreshSourceTopic : List Char := "skyportal/REFRESH_SOURCE".toList

/-- Group resolution of the create path:
`if not group_ids: groups = current_user.accessible_groups else
Group.get_if_accessible_by(...)` — an absent or empty list defaults to the
requester's accessible groups. -/
def resolvePostGroups (env : Env) (group_ids : Option (List Nat)) :
    Option (List Nat) :=
  match group_ids with
  | none => some env.accessibleGroupIds
  | some [] => some env.accessibleGroupIds
  | some gids => groupsIfAccessible env gids

/-- Attachment handling of the create path: absent means no attachment;
a present value must be an object with both `body` and `name` keys, whose
body is stored as text after `body.split('base64,')[-1]`; anything else is
malformed. -/
def decodeAttachment :
    Option AttachVal → Option (Option (List Char) × Option (List Char))
  | none => some (none, none)
  | some .notObject => none
  | some (.object body name) =>
      match body, name with
      | some b, some n => some (some (pySplitBase64Last b), some n)
      | _, _ => none

/-- Embedding of `CommentHandler.post`: field checks, group resolution and
attachment decoding in program order, then the notification adds, the
comment insert, the commit, the per-user pushes and the broadcast push.
An absent `text` reaches `users_mentioned(None)` and raises an uncaught
`AttributeError`. -/
def commentPost (env : Env) (data : PostData) : Outcome :=
  match data.obj_id with
  | none => ⟨[], .err .missingField⟩
  | some objId =>
    match resolvePostGroups env data.group_ids with
    | none => ⟨[], .err .accessDenied⟩
    | some groups =>
      match decodeAttachment data.attachment with
      | none => ⟨[], .err .malformedAttachment⟩
      | some (attachmentBytes, attachmentName) =>
        match data.text with
        | none => ⟨[], .err .uncaughtException⟩
        | some t =>
          let mentioned := users_mentioned env.directory t
          let newComment : CommentRec :=
            { id := env.nextCommentId, obj_id := objId, text := t,
              author_id := env.currentUser.id,
              attachment_bytes := attachmentBytes,
              attachment_name := attachmentName,
              group_ids := groups }
          ⟨(mentioned.map fun u =>
              Action.addNotification u.id
                (notificationText env.currentUser.username objId)
                (notificationUrl objId))
            ++ [Action.persistComment newComment, Action.commit]
            ++ (mentioned.map fun u => Action.pushUser u.id fetchNotificationsTopic)
            ++ [Action.pushAll refreshSourceTopic objId],
           .ok env.nextCommentId⟩

/-- The state of the comment after `schema.load(data, partial=True)`
(which applies the `text` and `attachment_name` fields present in the
request; `attachment_bytes` and `group_ids` were popped first) followed by
the explicit `attachment_bytes` assignment with its `base64,`-prefix
stripping. -/
def applyPartialUpdate (c : CommentRec) (d : PutData) : CommentRec :=
  let c1 : CommentRec :=
    { c with
      text := d.text.getD c.text,
      attachment_name :=
        match d.attachment_name with
        | none => c.attachment_name
        | some n => some n }
  match d.attachment_bytes with
  | none => c1
  | some b => { c1 with attachment_bytes := some (pySplitBase64Last b) }

/-- The joint-nullability test `bytes_is_none ^ name_is_none` of the
update path. -/
def xorNull (c : CommentRec) : Bool :=
  xor c.attachment_bytes.isNone c.attachment_name.isNone

/-- Embedding of `CommentHandler.put`: access-checked fetch, partial
update, joint-nullability check on the resulting state, optional group
replacement, then commit and broadcast push. -/
def commentPut (env : Env) (commentId : Nat) (d : PutData) : Outcome :=
  match commentIfAccessible env commentId .updateMode with
  | none => ⟨[], .err .notFoundOrForbidden⟩
  | some c =>
    let c1 := applyPartialUpdate c d
    if xorNull c1 then ⟨[], .err .attachmentConsistency⟩
    else
      match d.group_ids with
      | none =>
          ⟨[Action.persistComment c1, Action.commit,
            Action.pushAll refreshSourceTopic c1.obj_id], .ok commentId⟩
      | some gids =>
        match groupsIfAccessible env gids with
        | none => ⟨[], .err .accessDenied⟩
        | some gs =>
          let c2 : CommentRec := { c1 with group_ids := gs }
          ⟨[Action.persistComment c2, Action.commit,
            Action.pushAll refreshSourceTopic c2.obj_id], .ok commentId⟩

/-- Embedding of `CommentHandler.get`: access-checked fetch, returning the
comment or the indistinguishable not-found/forbidden error. -/
def commentGet (env : Env) (commentId : Nat) : Outcome :=
  match commentIfAccessible env commentId .readMode with
  | none => ⟨[], .err .notFoundOrForbidden⟩
  | some c => ⟨[], .ok c.id⟩

/-- Embedding of `CommentHandler.delete`: access-checked fetch, delete,
commit, broadcast push. -/
def commentDelete (env : Env) (commentId : Nat) : Outcome :=
  match commentIfAccessible env commentId .deleteMode with
  | none => ⟨[], .err .notFoundOrForbidden⟩
  | some c =>
      ⟨[Action.removeComment c.id, Action.commit,
        Action.pushAll refreshSourceTopic c.obj_id], .ok c.id⟩

/-- Response of the attachment-fetch handler. -/
inductive FetchResult where
  | download (filename : Option (List Char)) (contents : List Nat)
  | inlinePayload (commentId : Nat) (contents : List Nat)
  | err (e : Err)
  | uncaughtException
deriving DecidableEq, Repr

/-- Embedding of `CommentAttachmentHandler.get`: access-checked fetch, then
`base64.b64decode(comment.attachment_bytes)` in both modes; when
`attachment_bytes` is null the call raises an uncaught `TypeError`. -/
def commentAttachmentGet (env : Env) (commentId : Nat) (download : Bool) :
    FetchResult :=
  match commentIfAccessible env commentId .readMode with
  | none => .err .notFoundOrForbidden
  | some c =>
    match c.attachment_bytes with
    | none => .uncaughtException
    | some stored =>
      if download then .download c.attachment_name (b64decodeChars stored)
      else .inlinePayload commentId (b64decodeChars stored)

/-- Expected action trace of a successful create request: the notification
adds for the mentioned users, the comment insert, the commit, one per-user
push per mentioned user, and the final broadcast push, in program order. -/
def postTraceOf (env : Env) (objId t : List Char) (groups : List Nat)
    (ab an : Option (List Char)) : List Action :=
  ((users_mentioned env.directory t).map fun u =>
      Action.addNotification u.id
        (notificationText env.currentUser.username objId) (notificationUrl objId))
    ++ [Action.persistComment
          { id := env.nextCommentId, obj_id := objId, text := t,
            author_id := env.currentUser.id, attachment_bytes := ab,
            attachment_name := an, group_ids := groups },
        Action.commit]
    ++ ((users_mentioned env.directory t).map fun u =>
        Action.pushUser u.id fetchNotificationsTopic)
    ++ [Action.pushAll refreshSourceTopic objId]

/-- Structural malformedness of an `attachment` value: not a JSON object,
or missing the `body` or the `name` key. -/
def AttachVal.malformed : AttachVal → Bool
  | .notObject => true
  | .object body name => body.isNone || name.isNone

/-- The comment rows written (inserted or updated) by a trace. -/
def persistedComments (tr : List Action) : List CommentRec :=
  tr.filterMap fun a =>
    match a with
    | .persistComment c => some c
    | _ => none

/-- A small concrete environment for the concrete runs below. -/
def envBase : Env where
  directory := [⟨1, "alice".toList⟩, ⟨2, "bob".toList⟩]
  currentUser := ⟨9, "carol".toList⟩
  accessibleGroupIds := [1, 2]
  groupOk := fun g => g < 5
  comments := []
  canRead := fun _ => true
  canUpdate := fun _ => true
  canDelete := fun _ => true
  nextCommentId := 100

/-- A stored comment without attachment, visible to group 5 only. -/
def c5comment : CommentRec :=
  ⟨10, "obj5".toList, "note".toList, 2, none, none, [5]⟩

/-- Environment holding `c5comment` while the requester's accessible
groups are `[1]`. -/
def envC5 : Env :=
  { envBase with
    comments := [c5comment]
    accessibleGroupIds := [1] }

/-- Environment whose requester has no accessible groups. -/
def envC6 : Env := { envBase with accessibleGroupIds := [] }

/-- A stored comment with both attachment columns null. -/
def c3comment : CommentRec :=
  ⟨7, "obj3".toList, "text".toList, 2, none, none, [1]⟩

/-- Environment holding `c3comment`. -/
def envC3 : Env := { envBase with comments := [c3comment] }

/-- A stored comment that exists but is neither readable nor deletable by
the requester. -/
def c8comment : CommentRec :=
  ⟨21, "obj8".toList, "secret".toList, 3, none, none, [4]⟩

/-- Environment holding `c8comment` with all read/delete access denied. -/
def envC8 : Env :=
  { envBase with
    comments := [c8comment]
    canRead := fun _ => false
    canDelete := fun _ => false }

/-- The base64 text stored by the create path for a body carrying a
data-URL prefix and the encoding of the bytes of `"hey"`. -/
def c9stored : List Char :=
  pySplitBase64Last ("data:text/plain;".toList ++ b64sep ++ b64encodeBytes [104, 101, 121])

/-- A stored comment holding `c9stored` as its attachment. -/
def c9comment : CommentRec :=
  ⟨31, "obj9".toList, "file".toList, 2, some c9stored, some "hey.txt".toList, [1]⟩

/-- Environment holding `c9comment`. -/
def envC9 : Env := { envBase with comments := [c9comment] }

/-- A stored comment whose `attachment_bytes` is null. -/
def c10comment : CommentRec :=
  ⟨55, "obj10".toList, "bare".toList, 2, none, none, [1]⟩

/-- Environment holding `c10comment`. -/
def envC10 : Env := { envBase with comments := [c10comment] }

theorem afterLastSepGo_of_no_comma (fuel : Nat) (s acc : List Char) (h : ',' ∉ s) :
    afterLastSepGo fuel s acc = acc := by
  induction fuel generalizing s acc with
  | zero => rfl
  | succ n ih =>
    match s with
    | [] => rfl
    | c :: rest =>
      simp only [afterLastSepGo]
      rw [if_neg, ih rest acc (fun hm => h (List.mem_cons_of_mem _ hm))]
      intro hpre
      exact h ((List.isPrefixOf_iff_prefix.mp hpre).subset (by decide))

theorem not_prefix_straddle (p e : List Char) (h1 : 1 ≤ p.length) (h6 : p.length ≤ 6) :
    ¬ b64sep <+: (p ++ b64sep ++ e) := by
  intro hpre
  have hp : p <+: b64sep := by
    refine List.prefix_of_prefix_length_le ?_ hpre (by simp [b64sep]; omega)
    simp [List.append_assoc]
  have hpe : p = b64sep.take p.length := List.prefix_iff_eq_take.mp hp
  have h7 : b64sep = (p ++ b64sep ++ e).take 7 := List.prefix_iff_eq_take.mp hpre
  rw [List.append_assoc, List.take_append_eq_append_take,
    List.take_of_length_le (le_trans h6 (by omega)),
    List.take_append_of_le_length (by simp [b64sep])] at h7
  have hk : p.length = 1 ∨ p.length = 2 ∨ p.length = 3 ∨
      p.length = 4 ∨ p.length = 5 ∨ p.length = 6 := by omega
  rcases hk with hc | hc | hc | hc | hc | hc <;>
    (rw [hc] at h7 hpe; rw [hpe] at h7; exact absurd h7 (by decide))

theorem afterLastSepGo_append (fuel : Nat) :
    ∀ (p e acc : List Char), ',' ∉ e → p.length < fuel →
      afterLastSepGo fuel (p ++ b64sep ++ e) acc = e := by
  induction fuel with
  | zero => intro p e acc _ hlen; omega
  | succ n ih =>
    intro p e acc he hlen
    match p with
    | [] =>
      rw [List.nil_append]
      show afterLastSepGo (n + 1) ('b' :: (['a', 's', 'e', '6', '4', ','] ++ e)) acc = e
      simp only [afterLastSepGo]
      split
      · show afterLastSepGo n e e = e
        exact afterLastSepGo_of_no_comma n e e he
      · rename_i hfalse
        exact absurd (List.isPrefixOf_iff_prefix.mpr (List.prefix_append b64sep e)) hfalse
    | c :: p' =>
      show afterLastSepGo (n + 1) (c :: (p' ++ b64sep ++ e)) acc = e
      simp only [afterLastSepGo]
      split
      · rename_i hpre
        by_cases hlong : 6 ≤ p'.length
        · have hb : b64sep.length = 7 := rfl
          have hd : (p' ++ b64sep ++ e).drop 6 = p'.drop 6 ++ b64sep ++ e := by
            rw [List.drop_append_eq_append_drop, List.drop_append_eq_append_drop]
            have e1 : 6 - p'.length = 0 := by omega
            have e2 : 6 - (p' ++ b64sep).length = 0 := by
              simp only [List.length_append, hb]; omega
            rw [e1, e2]
            simp only [List.drop_zero]
          rw [hd]
          refine ih (p'.drop 6) e _ he ?_
          simp only [List.length_drop]
          simp only [List.length_cons] at hlen
          omega
        · exfalso
          have := List.isPrefixOf_iff_prefix.mp hpre
          exact not_prefix_straddle (c :: p') e (by simp only [List.length_cons]; omega)
            (by simp only [List.length_cons]; omega)
            (by simpa [List.append_assoc] using this)
      · rename_i hpre
        exact ih p' e acc he (by simp only [List.length_cons] at hlen; omega)

theorem decChar_encChar : ∀ n, n < 64 → decChar (encChar n) = n := by decide

theorem encChar_ne_pad : ∀ n, n < 64 → encChar n ≠ '=' := by decide

theorem encChar_ne_comma (n : Nat) : encChar n ≠ ',' := by
  by_cases h : n < 64
  · exact (by decide : ∀ m, m < 64 → encChar m ≠ ',') n h
  · unfold encChar
    rw [List.getD_eq_default]
    · decide
    · have hl : b64Alphabet.length = 64 := by decide
      omega

theorem b64encodeBytes_no_comma : ∀ (B : List Nat), ',' ∉ b64encodeBytes B := by
  intro B
  match B with
  | [] => simp [b64encodeBytes]
  | [a] =>
    intro h
    simp only [b64encodeBytes, List.mem_cons, List.not_mem_nil, or_false] at h
    rcases h with h | h | h | h
    · exact encChar_ne_comma _ h.symm
    · exact encChar_ne_comma _ h.symm
    · exact absurd h (by decide)
    · exact absurd h (by decide)
  | [a, b] =>
    intro h
    simp only [b64encodeBytes, List.mem_cons, List.not_mem_nil, or_false] at h
    rcases h with h | h | h | h
    · exact encChar_ne_comma _ h.symm
    · exact encChar_ne_comma _ h.symm
    · exact encChar_ne_comma _ h.symm
    · exact absurd h (by decide)
  | a :: b :: c :: rest =>
    intro h
    simp only [b64encodeBytes, List.mem_cons] at h
    rcases h with h | h | h | h | h
    · exact encChar_ne_comma _ h.symm
    · exact encChar_ne_comma _ h.symm
    · exact encChar_ne_comma _ h.symm
    · exact encChar_ne_comma _ h.symm
    · exact b64encodeBytes_no_comma rest h

theorem b64decode_encode (B : List Nat) (hB : ∀ x ∈ B, x < 256) :
    b64decodeChars (b64encodeBytes B) = B := by
  match B with
  | [] => rfl
  | [a] =>
    have ha : a < 256 := hB a (by simp)
    simp only [b64encodeBytes, b64decodeChars, if_true]
    rw [decChar_encChar _ (by omega), decChar_encChar _ (by omega)]
    have e1 : a / 4 * 4 + a % 4 * 16 / 16 = a := by omega
    rw [e1]
  | [a, b] =>
    have ha : a < 256 := hB a (by simp)
    have hb : b < 256 := hB b (by simp)
    simp only [b64encodeBytes, b64decodeChars]
    rw [if_neg (encChar_ne_pad _ (by omega))]
    simp only [if_true]
    rw [decChar_encChar _ (by omega), decChar_encChar _ (by omega),
      decChar_encChar _ (by omega)]
    have e1 : a / 4 * 4 + (a % 4 * 16 + b / 16) / 16 = a := by omega
    have e2 : (a % 4 * 16 + b / 16) % 16 * 16 + b % 16 * 4 / 4 = b := by omega
    rw [e1, e2]
  | [a, b, c] =>
    have ha : a < 256 := hB a (by simp)
    have hb : b < 256 := hB b (by simp)
    have hc : c < 256 := hB c (by simp)
    simp only [b64encodeBytes, b64decodeChars]
    rw [if_neg (encChar_ne_pad _ (by omega)), if_neg (encChar_ne_pad _ (by omega)),
      decChar_encChar _ (by omega), decChar_encChar _ (by omega),
      decChar_encChar _ (by omega), decChar_encChar _ (by omega)]
    have e1 : a / 4 * 4 + (a % 4 * 16 + b / 16) / 16 = a := by omega
    have e2 : (a % 4 * 16 + b / 16) % 16 * 16 + (b % 16 * 4 + c / 64) / 4 = b := by omega
    have e3 : (b % 16 * 4 + c / 64) % 4 * 64 + c % 64 = c := by omega
    rw [e1, e2, e3]
  | a :: b :: c :: d :: rest =>
    have ha : a < 256 := hB a (by simp)
    have hb : b < 256 := hB b (by simp)
    have hc : c < 256 := hB c (by simp)
    have ih := b64decode_encode (d :: rest) (fun x hx => hB x (by simp at hx ⊢; tauto))
    simp only [b64encodeBytes, b64decodeChars]
    rw [if_neg (encChar_ne_pad _ (by omega)), if_neg (encChar_ne_pad _ (by omega)),
      decChar_encChar _ (by omega), decChar_encChar _ (by omega),
      decChar_encChar _ (by omega), decChar_encChar _ (by omega)]
    have e1 : a / 4 * 4 + (a % 4 * 16 + b / 16) / 16 = a := by omega
    have e2 : (a % 4 * 16 + b / 16) % 16 * 16 + (b % 16 * 4 + c / 64) / 4 = b := by omega
    have e3 : (b % 16 * 4 + c / 64) % 4 * 64 + c % 64 = c := by omega
    rw [e1, e2, e3]
    have ih2 : b64decodeChars (b64encodeBytes (d :: rest)) = d :: rest := ih
    rw [ih2]

theorem pySplitBase64Last_of_no_comma (s : List Char) (h : ',' ∉ s) :
    pySplitBase64Last s = s :=
  afterLastSepGo_of_no_comma _ s s h

theorem pySplitBase64Last_append (p e : List Char) (he : ',' ∉ e) :
    pySplitBase64Last (p ++ b64sep ++ e) = e := by
  apply afterLastSepGo_append _ _ _ _ he
  simp
  omega

/-- C2: `users_mentioned` returns exactly the existing users whose username
matches a mention candidate of the text, where candidates arise by
tokenizing on whitespace (with commas turned into whitespace), stripping
leading/trailing punctuation except `-` and `@`, keeping tokens that start
with `@` and removing every `@`; candidates matching no existing user are
silently dropped.  The two spec examples hold: {alice, bob} for
"hello @alice, @bob and @nobody", and {jane-doe} for "cc @jane-doe". -/
theorem c2_mention_extraction :
    (∀ (directory : List User) (text : List Char) (u : User),
        u ∈ users_mentioned directory text ↔
          u ∈ directory ∧ u.username ∈ mentionCandidates text) ∧
    users_mentioned [⟨1, "alice".toList⟩, ⟨2, "bob".toList⟩]
        "hello @alice, @bob and @nobody".toList
      = [⟨1, "alice".toList⟩, ⟨2, "bob".toList⟩] ∧
    users_mentioned [⟨7, "jane-doe".toList⟩] "cc @jane-doe".toList
      = [⟨7, "jane-doe".toList⟩] := by
  refine ⟨?_, by decide, by decide⟩
  intro directory text u
  simp [users_mentioned, List.mem_filter]

/-- C4: a create request with `obj_id` absent fails with the missing-field
error before any persistence, but a create request with `obj_id` present
and `text` absent does not fail with `MissingField`: the handler never
checks `text` and reaches `users_mentioned(None)`, which raises an uncaught
`AttributeError`; no comment is persisted on that path either. -/
theorem c4_missing_text_uncaught :
    commentPost envBase ⟨none, some "hi".toList, none, none⟩ =
      ⟨[], .err .missingField⟩ ∧
    commentPost envBase ⟨some "obj1".toList, none, none, none⟩ =
      ⟨[], .err .uncaughtException⟩ ∧
    (commentPost envBase ⟨some "obj1".toList, none, none, none⟩).result ≠
      .err .missingField := by decide

/-- C8: read and delete on an absent comment and on an existing but
inaccessible comment produce identical responses, the single
`NotFoundOrForbidden` error, so the response does not reveal whether the
comment exists. -/
theorem c8_not_found_forbidden_indistinguishable
    (env env2 : Env) (cid cid2 : Nat) (c2 : CommentRec)
    (habsent : env.comments.find? (fun c => c.id = cid) = none)
    (hfind : env2.comments.find? (fun c => c.id = cid2) = some c2)
    (hr : env2.canRead c2.id = false) (hd : env2.canDelete c2.id = false) :
    commentGet env cid = ⟨[], .err .notFoundOrForbidden⟩ ∧
    commentDelete env cid = ⟨[], .err .notFoundOrForbidden⟩ ∧
    commentGet env2 cid2 = ⟨[], .err .notFoundOrForbidden⟩ ∧
    commentDelete env2 cid2 = ⟨[], .err .notFoundOrForbidden⟩ ∧
    commentGet env cid = commentGet env2 cid2 ∧
    commentDelete env cid = commentDelete env2 cid2 := by
  unfold commentGet commentDelete commentIfAccessible
  rw [habsent, hfind]
  simp [hr, hd]

/-- C8 witness: concrete absent id (77) versus the concrete stored but
inaccessible `c8comment` (id 21). -/
theorem c8_witness :
    envBase.comments.find? (fun c => c.id = 77) = none ∧
    envC8.comments.find? (fun c => c.id = 21) = some c8comment ∧
    envC8.canRead c8comment.id = false ∧
    envC8.canDelete c8comment.id = false ∧
    (commentGet envBase 77 = ⟨[], .err .notFoundOrForbidden⟩ ∧
     commentDelete envBase 77 = ⟨[], .err .notFoundOrForbidden⟩ ∧
     commentGet envC8 21 = ⟨[], .err .notFoundOrForbidden⟩ ∧
     commentDelete envC8 21 = ⟨[], .err .notFoundOrForbidden⟩ ∧
     commentGet envBase 77 = commentGet envC8 21 ∧
     commentDelete envBase 77 = commentDelete envC8 21) :=
  ⟨by decide, by decide, by decide, by decide,
   c8_not_found_forbidden_indistinguishable envBase envC8 77 21 c8comment
     (by decide) (by decide) (by decide) (by decide)⟩

/-- C10: fetching the attachment of an accessible comment whose
`attachment_bytes` is null does not produce a well-formed response in
either mode: `base64.b64decode(None)` is unguarded and the request dies
with an uncaught `TypeError`. -/
theorem c10_null_attachment_uncaught (env : Env) (cid : Nat) (c : CommentRec)
    (hfind : env.comments.find? (fun x => x.id = cid) = some c)
    (hread : env.canRead c.id = true)
    (hnone : c.attachment_bytes = none) :
    commentAttachmentGet env cid true = .uncaughtException ∧
    commentAttachmentGet env cid false = .uncaughtException := by
  unfold commentAttachmentGet commentIfAccessible
  rw [hfind]
  simp [hread, hnone]

/-- C10 witness: the concrete attachment-free `c10comment`. -/
theorem c10_witness :
    envC10.comments.find? (fun x => x.id = 55) = some c10comment ∧
    envC10.canRead c10comment.id = true ∧
    c10comment.attachment_bytes = none ∧
    (commentAttachmentGet envC10 55 true = .uncaughtException ∧
     commentAttachmentGet envC10 55 false = .uncaughtException) :=
  ⟨by decide, by decide, rfl,
   c10_null_attachment_uncaught envC10 55 c10comment (by decide) (by decide) rfl⟩

/-- C3: the update path checks the joint-nullability invariant against the
resulting comment state (stored state with the partial update applied): the
request fails with the attachment-consistency error exactly when that
resulting state has one attachment column null and the other not, the
failure happens before any persistence, an update that sets only
`attachment_name` while `attachment_bytes` stays null fails, and an update
setting both at once succeeds. -/
theorem c3_update_joint_nullability (env : Env) (cid : Nat) (c : CommentRec)
    (hc : commentIfAccessible env cid .updateMode = some c) :
    (∀ d : PutData, ((commentPut env cid d).result = .err .attachmentConsistency ↔
        xorNull (applyPartialUpdate c d) = true)) ∧
    (∀ d : PutData, xorNull (applyPartialUpdate c d) = true →
        commentPut env cid d = ⟨[], .err .attachmentConsistency⟩) ∧
    (c.attachment_bytes = none → c.attachment_name = none →
      ∀ (n : List Char) (dt : Option (List Char)),
        (commentPut env cid ⟨dt, some n, none, none⟩).result =
          .err .attachmentConsistency) ∧
    (c.attachment_bytes = none → c.attachment_name = none →
      ∀ (n b : List Char) (dt : Option (List Char)),
        (commentPut env cid ⟨dt, some n, some b, none⟩).result = .ok cid) := by
  have hiff : ∀ d : PutData,
      ((commentPut env cid d).result = .err .attachmentConsistency ↔
        xorNull (applyPartialUpdate c d) = true) := by
    intro d
    simp only [commentPut, hc]
    by_cases hx : xorNull (applyPartialUpdate c d) = true
    · simp [hx]
    · rw [if_neg hx]
      constructor
      · intro habs
        exfalso
        split at habs
        · simp at habs
        · split at habs <;> simp at habs
      · intro habs; exact absurd habs hx
  refine ⟨hiff, ?_, ?_, ?_⟩
  · intro d hx
    simp only [commentPut, hc]
    rw [if_pos hx]
  · intro hb hn n dt
    rw [hiff]
    simp [applyPartialUpdate, xorNull, hb, hn]
  · intro hb hn n b dt
    simp only [commentPut, hc]
    rw [if_neg (by simp [applyPartialUpdate, xorNull, hb, hn])]

/-- C3 witness: on the stored `c3comment` (both columns null), setting only
the name fails with the consistency error while setting both succeeds. -/
theorem c3_witness :
    commentIfAccessible envC3 7 .updateMode = some c3comment ∧
    ((commentPut envC3 7 ⟨none, some "f.txt".toList, none, none⟩).result =
      .err .attachmentConsistency) ∧
    ((commentPut envC3 7
        ⟨none, some "f.txt".toList, some "QQ==".toList, none⟩).result = .ok 7) :=
  ⟨by decide,
   (c3_update_joint_nullability envC3 7 c3comment (by decide)).2.2.1 rfl rfl
     "f.txt".toList none,
   (c3_update_joint_nullability envC3 7 c3comment (by decide)).2.2.2 rfl rfl
     "f.txt".toList "QQ==".toList none⟩

/-- C1: a successful create whose text mentions exactly `k` distinct
existing users performs, in program order, one durable notification add per
mentioned user (text naming the acting user and the object, URL deep-linking
to the object), the comment insert, the commit, then exactly `k` per-user
push events and exactly one broadcast refresh event for the annotated
object; every push comes after the commit. -/
theorem c1_notification_fanout (env : Env) (data : PostData)
    (objId t : List Char) (groups : List Nat) (ab an : Option (List Char)) (k : Nat)
    (hobj : data.obj_id = some objId) (htext : data.text = some t)
    (hg : resolvePostGroups env data.group_ids = some groups)
    (ha : decodeAttachment data.attachment = some (ab, an))
    (hk : (users_mentioned env.directory t).length = k)
    (hd : env.directory.Nodup) :
    commentPost env data =
      ⟨postTraceOf env objId t groups ab an, .ok env.nextCommentId⟩ ∧
    (users_mentioned env.directory t).Nodup ∧
    (postTraceOf env objId t groups ab an).countP Action.isAddNotification = k ∧
    (postTraceOf env objId t groups ab an).countP Action.isPushUser = k ∧
    (postTraceOf env objId t groups ab an).countP Action.isPushAll = 1 ∧
    (∃ pre suf, postTraceOf env objId t groups ab an =
        pre ++ Action.commit :: suf ∧ ∀ a ∈ pre, a.isPush = false) := by
  subst hk
  refine ⟨?_, List.Nodup.filter _ hd, ?_, ?_, ?_, ?_⟩
  · simp only [commentPost, hobj, hg, ha, htext, postTraceOf]
  · simp [postTraceOf, List.countP_append, List.countP_map, Function.comp_def,
      Action.isAddNotification, Action.isPushUser, Action.isPushAll,
      List.countP_cons, List.countP_nil]
  · simp [postTraceOf, List.countP_append, List.countP_map, Function.comp_def,
      Action.isAddNotification, Action.isPushUser, Action.isPushAll,
      List.countP_cons, List.countP_nil]
  · simp [postTraceOf, List.countP_append, List.countP_map, Function.comp_def,
      Action.isAddNotification, Action.isPushUser, Action.isPushAll,
      List.countP_cons, List.countP_nil]
  · refine ⟨((users_mentioned env.directory t).map fun u =>
        Action.addNotification u.id
          (notificationText env.currentUser.username objId) (notificationUrl objId))
        ++ [Action.persistComment
              { id := env.nextCommentId, obj_id := objId, text := t,
                author_id := env.currentUser.id, attachment_bytes := ab,
                attachment_name := an, group_ids := groups }],
      ((users_mentioned env.directory t).map fun u =>
          Action.pushUser u.id fetchNotificationsTopic)
        ++ [Action.pushAll refreshSourceTopic objId], ?_, ?_⟩
    · simp [postTraceOf]
    · intro a ha2
      rcases List.mem_append.mp ha2 with hmem | hmem
      · rcases List.mem_map.mp hmem with ⟨u, _, rfl⟩
        rfl
      · rcases List.mem_singleton.mp hmem with rfl
        rfl

/-- C1 witness: a concrete create mentioning `alice` and `bob` (two
distinct existing users) run in `envBase`. -/
theorem c1_witness :
    (users_mentioned envBase.directory "hi @alice @bob".toList).length = 2 ∧
    envBase.directory.Nodup ∧
    commentPost envBase ⟨some "obj1".toList, some "hi @alice @bob".toList, none, none⟩ =
      ⟨postTraceOf envBase "obj1".toList "hi @alice @bob".toList [1, 2] none none,
       .ok envBase.nextCommentId⟩ :=
  ⟨by decide, by decide,
   (c1_notification_fanout envBase
      ⟨some "obj1".toList, some "hi @alice @bob".toList, none, none⟩
      "obj1".toList "hi @alice @bob".toList [1, 2] none none 2
      rfl rfl rfl rfl (by decide) (by decide)).1⟩

theorem filterMap_const_none {α β : Type} (l : List α) :
    l.filterMap (fun _ => (none : Option β)) = [] := by
  induction l with
  | nil => rfl
  | cons a l ih => simp [List.filterMap_cons, ih]

theorem applyPartialUpdate_group_ids (c : CommentRec) (d : PutData) :
    (applyPartialUpdate c d).group_ids = c.group_ids := by
  cases hb : d.attachment_bytes <;> simp [applyPartialUpdate, hb]

theorem persistedComments_postTraceOf (env : Env) (objId t : List Char)
    (groups : List Nat) (ab an : Option (List Char)) :
    persistedComments (postTraceOf env objId t groups ab an) =
      [{ id := env.nextCommentId, obj_id := objId, text := t,
         author_id := env.currentUser.id, attachment_bytes := ab,
         attachment_name := an, group_ids := groups }] := by
  simp only [persistedComments, postTraceOf, List.filterMap_append,
    List.filterMap_map, List.filterMap_cons, List.filterMap_nil]
  simp [Function.comp_def, filterMap_const_none]

/-- C5 counterexample: an update request with the group list absent leaves
the stored visibility `[5]` unchanged instead of defaulting it to the
requester's accessible groups `[1]`, refuting the claim for updates. -/
theorem c5_counterexample :
    (commentPut envC5 10 ⟨none, none, none, none⟩).result = .ok 10 ∧
    (commentPut envC5 10 ⟨none, none, none, none⟩).trace =
      [Action.persistComment c5comment, Action.commit,
       Action.pushAll refreshSourceTopic "obj5".toList] ∧
    c5comment.group_ids = [5] ∧
    envC5.accessibleGroupIds = [1] ∧
    ([5] : List Nat) ≠ [1] := by decide

/-- C5 (amended): on create, an absent or empty explicit group list
defaults the visibility to the requester's accessible groups, and a
present list whose accessibility check fails aborts the whole request with
`AccessDenied` and no persistence; on update, an absent list leaves the
stored visibility unchanged, a present list (all-or-nothing checked the
same way) replaces it, and the accessible-groups default does not apply. -/
theorem c5_amended_group_resolution :
    (∀ env : Env, resolvePostGroups env none = some env.accessibleGroupIds) ∧
    (∀ env : Env, resolvePostGroups env (some []) = some env.accessibleGroupIds) ∧
    (∀ (env : Env) (data : PostData) (objId : List Char) (gids : List Nat),
      data.obj_id = some objId → data.group_ids = some gids →
      gids.all env.groupOk = false →
      commentPost env data = ⟨[], .err .accessDenied⟩) ∧
    (∀ (env : Env) (cid : Nat) (c : CommentRec) (d : PutData) (gids : List Nat),
      commentIfAccessible env cid .updateMode = some c →
      xorNull (applyPartialUpdate c d) = false →
      d.group_ids = some gids → gids.all env.groupOk = false →
      commentPut env cid d = ⟨[], .err .accessDenied⟩) ∧
    (∀ (env : Env) (cid : Nat) (c : CommentRec) (d : PutData),
      commentIfAccessible env cid .updateMode = some c →
      xorNull (applyPartialUpdate c d) = false →
      d.group_ids = none →
      (persistedComments (commentPut env cid d).trace).map CommentRec.group_ids
        = [c.group_ids]) ∧
    (∀ (env : Env) (cid : Nat) (c : CommentRec) (d : PutData) (gids : List Nat),
      commentIfAccessible env cid .updateMode = some c →
      xorNull (applyPartialUpdate c d) = false →
      d.group_ids = some gids → gids.all env.groupOk = true →
      (persistedComments (commentPut env cid d).trace).map CommentRec.group_ids
        = [gids]) := by
  refine ⟨fun env => rfl, fun env => rfl, ?_, ?_, ?_, ?_⟩
  · intro env data objId gids hobj hgid hall
    match gids, hall with
    | g :: gs, hall =>
      simp only [commentPost, hobj, hgid, resolvePostGroups, groupsIfAccessible,
        hall, Bool.false_eq_true, if_false]
  · intro env cid c d gids hc hx hgid hall
    simp only [commentPut, hc, hx, Bool.false_eq_true, if_false, hgid,
      groupsIfAccessible, hall]
  · intro env cid c d hc hx hgid
    simp only [commentPut, hc, hx, Bool.false_eq_true, if_false, hgid]
    simp [persistedComments, List.filterMap_cons, applyPartialUpdate_group_ids]
  · intro env cid c d gids hc hx hgid hall
    simp only [commentPut, hc, hx, Bool.false_eq_true, if_false, hgid,
      groupsIfAccessible, hall, if_true]
    simp [persistedComments, List.filterMap_cons]

/-- C5 witness: concrete runs of the amended statement: the create default
for an absent list, a denied create with an inaccessible group id (7, not
accessible in `envBase`), and an update that keeps `[5]` with the list
absent. -/
theorem c5_witness :
    resolvePostGroups envBase none = some envBase.accessibleGroupIds ∧
    commentPost envBase ⟨some "o".toList, some "t".toList, some [7], none⟩ =
      ⟨[], .err .accessDenied⟩ ∧
    (persistedComments (commentPut envC5 10 ⟨none, none, none, none⟩).trace).map
        CommentRec.group_ids = [c5comment.group_ids] :=
  ⟨c5_amended_group_resolution.1 envBase,
   c5_amended_group_resolution.2.2.1 envBase
     ⟨some "o".toList, some "t".toList, some [7], none⟩ "o".toList [7]
     rfl rfl (by decide),
   c5_amended_group_resolution.2.2.2.2.1 envC5 10 c5comment
     ⟨none, none, none, none⟩ (by decide) (by decide) rfl⟩

/-- C6 counterexample: a requester with no accessible groups creates a
comment with an absent group list; the create succeeds and silently
persists an empty visibility set, refuting the non-emptiness claim. -/
theorem c6_counterexample :
    (commentPost envC6 ⟨some "obj6".toList, some "note".toList, none, none⟩).result
      = .ok 100 ∧
    (commentPost envC6 ⟨some "obj6".toList, some "note".toList, none, none⟩).trace
      = [Action.persistComment
           ⟨100, "obj6".toList, "note".toList, 9, none, none, []⟩,
         Action.commit, Action.pushAll refreshSourceTopic "obj6".toList] := by
  decide

/-- C6 (amended): every comment persisted by create or update carries
exactly the resolved group list; the core applies no non-emptiness check,
so the persisted visibility set is empty precisely when that list is empty
— in particular a create defaulting to an empty accessible-group set
persists an empty visibility set. -/
theorem c6_amended_visibility_is_resolved_list :
    (∀ (env : Env) (data : PostData) (objId t : List Char) (groups : List Nat)
        (ab an : Option (List Char)),
      data.obj_id = some objId → data.text = some t →
      resolvePostGroups env data.group_ids = some groups →
      decodeAttachment data.attachment = some (ab, an) →
      (persistedComments (commentPost env data).trace).map CommentRec.group_ids
        = [groups]) ∧
    (∀ (env : Env) (cid : Nat) (c : CommentRec) (d : PutData) (gids gs : List Nat),
      commentIfAccessible env cid .updateMode = some c →
      xorNull (applyPartialUpdate c d) = false →
      d.group_ids = some gids → groupsIfAccessible env gids = some gs →
      (persistedComments (commentPut env cid d).trace).map CommentRec.group_ids
        = [gs]) ∧
    (∀ (env : Env) (objId t : List Char), env.accessibleGroupIds = [] →
      (persistedComments
          (commentPost env ⟨some objId, some t, none, none⟩).trace).map
        CommentRec.group_ids = [[]]) := by
  have hpost : ∀ (env : Env) (data : PostData) (objId t : List Char)
      (groups : List Nat) (ab an : Option (List Char)),
      data.obj_id = some objId → data.text = some t →
      resolvePostGroups env data.group_ids = some groups →
      decodeAttachment data.attachment = some (ab, an) →
      (persistedComments (commentPost env data).trace).map CommentRec.group_ids
        = [groups] := by
    intro env data objId t groups ab an hobj htext hg ha
    have hrun : commentPost env data =
        ⟨postTraceOf env objId t groups ab an, .ok env.nextCommentId⟩ := by
      simp only [commentPost, hobj, htext, hg, ha, postTraceOf]
    rw [hrun]
    rw [show (Outcome.mk (postTraceOf env objId t groups ab an)
        (.ok env.nextCommentId)).trace = postTraceOf env objId t groups ab an
      from rfl]
    rw [persistedComments_postTraceOf]
    rfl
  refine ⟨hpost, ?_, ?_⟩
  · intro env cid c d gids gs hc hx hgid hga
    simp only [commentPut, hc, hx, Bool.false_eq_true, if_false, hgid, hga]
    simp [persistedComments, List.filterMap_cons]
  · intro env objId t hacc
    have h1 := hpost env ⟨some objId, some t, none, none⟩ objId t
      env.accessibleGroupIds none none rfl rfl rfl rfl
    rw [hacc] at h1
    exact h1

/-- C6 witness: the concrete empty-accessible-set environment persists an
empty visibility list. -/
theorem c6_witness :
    envC6.accessibleGroupIds = [] ∧
    (persistedComments
        (commentPost envC6 ⟨some "obj6".toList, some "note".toList, none,
          none⟩).trace).map CommentRec.group_ids = [[]] :=
  ⟨rfl, c6_amended_visibility_is_resolved_list.2.2 envC6 "obj6".toList
    "note".toList rfl⟩

/-- C7: with `obj_id` present and groups resolvable, a create fails with
the malformed-attachment error exactly when the `attachment` field is
present but is not an object or lacks `body` or `name`; on that failure
nothing is persisted (empty trace).  A well-formed attachment is stored
with everything up to and including the last `'base64,'` stripped from the
body and the remaining comma-free base64 text kept verbatim. -/
theorem c7_attachment_validation (env : Env) (data : PostData)
    (objId : List Char) (groups : List Nat)
    (hobj : data.obj_id = some objId)
    (hg : resolvePostGroups env data.group_ids = some groups) :
    ((commentPost env data).result = .err .malformedAttachment ↔
      ∃ a, data.attachment = some a ∧ a.malformed = true) ∧
    ((commentPost env data).result = .err .malformedAttachment →
      (commentPost env data).trace = []) ∧
    (∀ (b n t : List Char), data.attachment = some (.object (some b) (some n)) →
      data.text = some t →
      commentPost env data = ⟨postTraceOf env objId t groups
        (some (pySplitBase64Last b)) (some n), .ok env.nextCommentId⟩) ∧
    (∀ (p rest : List Char), ',' ∉ rest →
      pySplitBase64Last (p ++ b64sep ++ rest) = rest) ∧
    (∀ b : List Char, ',' ∉ b → pySplitBase64Last b = b) := by
  have hdec : ∀ (ab an : Option (List Char)),
      decodeAttachment data.attachment = some (ab, an) →
      (commentPost env data).result ≠ .err .malformedAttachment := by
    intro ab an ha
    simp only [commentPost, hobj, hg, ha]
    split <;> simp
  have hmain : ((commentPost env data).result = .err .malformedAttachment ↔
      ∃ a, data.attachment = some a ∧ a.malformed = true) ∧
      ((commentPost env data).result = .err .malformedAttachment →
        (commentPost env data).trace = []) := by
    rcases hatt : data.attachment with _ | a
    · have hne := hdec none none (by rw [hatt]; rfl)
      refine ⟨⟨fun h => absurd h hne, ?_⟩, fun h => absurd h hne⟩
      rintro ⟨a, haeq, _⟩
      exact absurd haeq (by simp)
    · rcases a with _ | ⟨body, name⟩
      · have hrun : commentPost env data = ⟨[], .err .malformedAttachment⟩ := by
          simp only [commentPost, hobj, hg, hatt, decodeAttachment]
        refine ⟨⟨fun _ => ⟨.notObject, rfl, rfl⟩, fun _ => by rw [hrun]⟩,
          fun _ => by rw [hrun]⟩
      · rcases body with _ | b
        · have hrun : commentPost env data = ⟨[], .err .malformedAttachment⟩ := by
            simp only [commentPost, hobj, hg, hatt, decodeAttachment]
          refine ⟨⟨fun _ => ⟨.object none name, rfl, rfl⟩, fun _ => by rw [hrun]⟩,
            fun _ => by rw [hrun]⟩
        · rcases name with _ | n
          · have hrun : commentPost env data = ⟨[], .err .malformedAttachment⟩ := by
              simp only [commentPost, hobj, hg, hatt, decodeAttachment]
            refine ⟨⟨fun _ => ⟨.object (some b) none, rfl, rfl⟩,
              fun _ => by rw [hrun]⟩, fun _ => by rw [hrun]⟩
          · have hne := hdec (some (pySplitBase64Last b)) (some n)
              (by rw [hatt]; rfl)
            refine ⟨⟨fun h => absurd h hne, ?_⟩, fun h => absurd h hne⟩
            rintro ⟨a, haeq, hmal⟩
            injection haeq with haeq
            rw [← haeq] at hmal
            simp [AttachVal.malformed] at hmal
  refine ⟨hmain.1, hmain.2, ?_, fun p rest h => pySplitBase64Last_append p rest h,
    fun b h => pySplitBase64Last_of_no_comma b h⟩
  intro b n t hatt htext
  simp only [commentPost, hobj, hg, hatt, decodeAttachment, htext, postTraceOf]

/-- C7 witness: a concrete create with an attachment missing its `body`
fails with the malformed-attachment error and an empty trace, while a
well-formed one is persisted with the stripped body. -/
theorem c7_witness :
    ((commentPost envBase ⟨some "o".toList, some "t".toList, none,
        some (.object none (some "n".toList))⟩).result =
      .err .malformedAttachment) ∧
    ((commentPost envBase ⟨some "o".toList, some "t".toList, none,
        some (.object none (some "n".toList))⟩).trace = []) ∧
    commentPost envBase ⟨some "o".toList, some "t".toList, none,
        some (.object (some "TWFu".toList) (some "n".toList))⟩ =
      ⟨postTraceOf envBase "o".toList "t".toList [1, 2]
        (some (pySplitBase64Last "TWFu".toList)) (some "n".toList),
       .ok envBase.nextCommentId⟩ :=
  ⟨(c7_attachment_validation envBase
      ⟨some "o".toList, some "t".toList, none, some (.object none (some "n".toList))⟩
      "o".toList [1, 2] rfl rfl).1.mpr ⟨.object none (some "n".toList), rfl, rfl⟩,
   (c7_attachment_validation envBase
      ⟨some "o".toList, some "t".toList, none, some (.object none (some "n".toList))⟩
      "o".toList [1, 2] rfl rfl).2.1
     ((c7_attachment_validation envBase
        ⟨some "o".toList, some "t".toList, none, some (.object none (some "n".toList))⟩
        "o".toList [1, 2] rfl rfl).1.mpr ⟨.object none (some "n".toList), rfl, rfl⟩),
   (c7_attachment_validation envBase
      ⟨some "o".toList, some "t".toList, none,
        some (.object (some "TWFu".toList) (some "n".toList))⟩
      "o".toList [1, 2] rfl rfl).2.2.1 "TWFu".toList "n".toList "t".toList rfl rfl⟩

/-- C9: storing an attachment whose body is the base64 encoding of any
byte string `B` — optionally preceded by a data-URL prefix ending in
`'base64,'` — keeps exactly the base64 text, and fetching it through the
attachment read path in download mode decodes it back to exactly `B`. -/
theorem c9_attachment_roundtrip (B : List Nat) (hB : ∀ x ∈ B, x < 256)
    (p : List Char) (env : Env) (cid : Nat) (c : CommentRec)
    (hfind : env.comments.find? (fun x => x.id = cid) = some c)
    (hread : env.canRead c.id = true)
    (hbytes : c.attachment_bytes =
        some (pySplitBase64Last (p ++ b64sep ++ b64encodeBytes B))) :
    b64decodeChars (pySplitBase64Last (b64encodeBytes B)) = B ∧
    b64decodeChars (pySplitBase64Last (p ++ b64sep ++ b64encodeBytes B)) = B ∧
    commentAttachmentGet env cid true = .download c.attachment_name B := by
  have h1 : pySplitBase64Last (b64encodeBytes B) = b64encodeBytes B :=
    pySplitBase64Last_of_no_comma _ (b64encodeBytes_no_comma B)
  have h2 : pySplitBase64Last (p ++ b64sep ++ b64encodeBytes B) =
      b64encodeBytes B :=
    pySplitBase64Last_append _ _ (b64encodeBytes_no_comma B)
  have hrt := b64decode_encode B hB
  refine ⟨by rw [h1, hrt], by rw [h2, hrt], ?_⟩
  have h2r : pySplitBase64Last (p ++ (b64sep ++ b64encodeBytes B)) =
      b64encodeBytes B := by
    rw [← List.append_assoc]
    exact h2
  unfold commentAttachmentGet commentIfAccessible
  rw [hfind]
  simp [hread, hbytes, h2, h2r, hrt]

/-- C9 witness: the bytes of `"hey"` stored behind a `data:` prefix in
`c9comment` come back exactly in download mode. -/
theorem c9_witness :
    (∀ x ∈ [104, 101, 121], x < 256) ∧
    envC9.comments.find? (fun x => x.id = 31) = some c9comment ∧
    commentAttachmentGet envC9 31 true =
      .download (some "hey.txt".toList) [104, 101, 121] :=
  ⟨by decide, by decide,
   (c9_attachment_roundtrip [104, 101, 121] (by decide) "data:text/plain;".toList
      envC9 31 c9comment (by decide) (by decide) rfl).2.2⟩

end Skyportal
